import Mathlib

/-!
# Verification of the audio2vtt core (segmentation engine + job queue)

Shallow embedding of the repository's core logic:

* `src/audio_subtitler.py` — `segments_to_subtitle`, `_format_subtitles`,
  `_seconds_to_time`, `end_with_stop_char`, `_capitalize_text` and friends
  (the `whisper_utils.py` variants `convert_to_subtitles` / `end_with_stop_char`
  are byte-for-byte the same loop, so one embedding covers both);
* `src/queue_manager.py` — `Job`, `JobStatus`, `TranscriptionQueueManager`
  (`submit_job`, `get_job_status`, `get_queue_info`, `_worker`), modelled as an
  explicit state machine with the asyncio scheduler's atomic bookkeeping steps.

Conventions: Python floats carrying timestamps are modelled as `ℚ` (the claims
are about exact arithmetic); Python strings as Lean `String` (both are
sequences of Unicode code points); `datetime.now()` values are external inputs
to each step, modelled as `Nat` tick parameters; `bytes` payloads are abstracted
to an opaque `Nat`.
-/

namespace AudioToVtt

/-! ## Segmentation engine (`src/audio_subtitler.py`) -/

/-- The set `STOP_CHARS` from `audio_subtitler.py` lines 5-13 (identical set in
`whisper_utils.py` lines 15-23): Latin, CJK, Devanagari, Syriac/Ge'ez,
Arabic, Burmese and rare multilingual clause/sentence terminators. -/
def STOP_CHARS : List Char :=
  ['.', '!', '?', ',', ':', ';', '…', '‥',
   '。', '！', '？', '，', '、', '；', '：',
   '।',
   '܀', '።', '፧',
   '؟', '؛',
   '၊', '။',
   '⸮', '⁇', '⁈', '⁉']

/-- Function `end_with_stop_char(text)`: Python returns `False` on empty text, else
scans `STOP_CHARS` testing `text.endswith(c)`; since every element is a single
character this is exactly "the last code point is in the set". -/
def end_with_stop_char (text : String) : Bool :=
  match text.toList.getLast? with
  | none => false
  | some c => STOP_CHARS.contains c

/-- Characters accepted by Python's `str.isspace` (what a bare `str.strip()`
removes): ASCII whitespace, the C1 controls FS/GS/RS/US and NEL, and the
Unicode space separators. -/
def pyIsSpace (c : Char) : Bool :=
  let n := c.toNat
  (9 ≤ n && n ≤ 13) || (28 ≤ n && n ≤ 31) || n == 32 || n == 133 || n == 160 ||
    n == 5760 || (8192 ≤ n && n ≤ 8202) || n == 8232 || n == 8233 ||
    n == 8239 || n == 8287 || n == 12288

/-- Python `s.strip()` with no argument: drop `isspace` characters from both
ends. -/
def pyStrip (s : String) : String :=
  String.mk (((s.toList.dropWhile pyIsSpace).reverse.dropWhile pyIsSpace).reverse)

/-- A word token as produced by the transcriber: `word.word` (text, possibly
carrying leading whitespace), `word.start`, `word.end` (here `endt`, since
`end` is a Lean keyword). -/
structure Word where
  word : String
  start : ℚ
  endt : ℚ
deriving DecidableEq, Repr

/-- A raw transcriber segment: `segment.text`, `segment.start`, `segment.end`
(`endt`), `segment.words`. -/
structure RawSegment where
  text : String
  start : ℚ
  endt : ℚ
  words : List Word
deriving DecidableEq, Repr

/-- One emitted subtitle dict `{"msg": ..., "start_time": ..., "end_time": ...}`. -/
structure Cue where
  msg : String
  start_time : ℚ
  end_time : ℚ
deriving DecidableEq, Repr

/-- The mutable locals of the word loop in `segments_to_subtitle`
(`audio_subtitler.py` lines 77-120): accumulated output plus
`seg_start`, `seg_end`, `seg_text`, `is_segmented`, `words_idx`. -/
structure SegState where
  subtitles : List Cue
  seg_start : ℚ
  seg_end : ℚ
  seg_text : String
  is_segmented : Bool
  words_idx : Nat
deriving DecidableEq, Repr

/-- Lines 116-120 of `audio_subtitler.py`: the boundary checks guarded by
`words_idx == 0` / `words_idx == words_len - 1`, then `words_idx += 1`.
Note the source assigns `seg_start = word.start` and `seg_end = word.end`
(the *word's own* bounds) under those guards. -/
def boundaryBump (segment : RawSegment) (words_len : Nat) (st : SegState) (w : Word) :
    SegState :=
  let st :=
    if st.words_idx = 0 ∧ segment.start < w.start then
      { st with seg_start := w.start } else st
  let st :=
    if st.words_idx = words_len - 1 ∧ segment.endt > w.endt then
      { st with seg_end := w.endt } else st
  { st with words_idx := st.words_idx + 1 }

/-- The body of `for word in segment.words` (`audio_subtitler.py` lines 91-120).
The `continue` on an emptied buffer (line 102) skips the boundary checks and
the `words_idx` increment, which is why the `if t = ""` branch returns without
calling `boundaryBump`. -/
def processWord (segment : RawSegment) (words_len : Nat) (st : SegState) (w : Word) :
    SegState :=
  let st :=
    if st.is_segmented then st
    else { st with seg_start := w.start, is_segmented := true }
  let st := { st with seg_end := w.endt, seg_text := st.seg_text ++ w.word }
  if end_with_stop_char w.word then
    let t := st.seg_text.dropRight 1
    if t = "" then
      { st with seg_text := t }
    else
      let st :=
        if st.seg_start < st.seg_end ∧ pyStrip t ≠ "" then
          { st with subtitles :=
              st.subtitles ++ [⟨t, st.seg_start, st.seg_end⟩] }
        else st
      let st := { st with is_segmented := false, seg_text := "" }
      boundaryBump segment words_len st w
  else
    boundaryBump segment words_len st w

/-- One iteration of `for segment in segments` (`audio_subtitler.py` lines
80-128): bump `word_count`, run the word loop from freshly zeroed locals, then
flush the leftover buffer if non-empty and valid.  (The Python `if
segment.words:` guard is dropped: folding over an empty word list leaves the
locals untouched and the leftover flush then skips on `seg_text == ""`,
which is the same observable result.) -/
def processSegment (acc : List Cue × Nat) (segment : RawSegment) : List Cue × Nat :=
  let wc := acc.2 + segment.words.length
  let st0 : SegState :=
    { subtitles := acc.1, seg_start := 0, seg_end := 0, seg_text := "",
      is_segmented := false, words_idx := 0 }
  let st := segment.words.foldl (processWord segment segment.words.length) st0
  if st.seg_text = "" then (st.subtitles, wc)
  else if st.seg_start < st.seg_end ∧ pyStrip st.seg_text ≠ "" then
    (st.subtitles ++ [⟨st.seg_text, st.seg_start, st.seg_end⟩], wc)
  else (st.subtitles, wc)

/-- Method `AudioSubtitler.segments_to_subtitle(segments)` returning
`(subtitles, word_count)`.
The identical loop appears as `convert_to_subtitles` in `whisper_utils.py`
(which additionally concatenates `segment.text`; the cues and counts agree). -/
def segments_to_subtitle (segments : List RawSegment) : List Cue × Nat :=
  segments.foldl processSegment ([], 0)

/-! ## Subtitle renderer (`src/audio_subtitler.py` lines 54-169) -/

/-- Python's `a % b` for `b > 0`: result in `[0, b)` with the divisor's sign. -/
def pyMod (a b : ℚ) : ℚ := a - b * ⌊a / b⌋

/-- Python `"{:02d}".format(n)`: zero-pad to width 2 (the values formatted here are
the nonnegative components produced by `_seconds_to_time`; for those this is
exactly Python's behaviour). -/
def pad2 (n : ℤ) : String :=
  if 0 ≤ n ∧ n < 10 then "0" ++ toString n else toString n

/-- Python `"{:03d}".format(n)`: zero-pad to width 3 (again for the nonnegative
values produced here). -/
def pad3 (n : ℤ) : String :=
  if 0 ≤ n ∧ n < 10 then "00" ++ toString n
  else if 0 ≤ n ∧ n < 100 then "0" ++ toString n
  else toString n

/-- Method `AudioSubtitler._seconds_to_time(seconds, separator)` (lines 133-142);
identical arithmetic in `whisper_utils.time_convert_seconds_to_hmsm`.
Python's `//` is floor division, `%` on nonnegative operands is `pyMod`, and
`int()` is applied to values that are already nonnegative (the `% 3600`
remainder and its derivatives) or integral (`seconds // 3600`), where it
equals the floor — so every `int(...)` is `⌊·⌋` here. -/
def seconds_to_time (seconds : ℚ) (sep : String) : String :=
  let hours : ℤ := ⌊seconds / 3600⌋
  let s1 : ℚ := pyMod seconds 3600
  let minutes : ℤ := ⌊s1 / 60⌋
  let milliseconds : ℤ := ⌊s1 * 1000⌋ % 1000
  let secs : ℤ := ⌊pyMod s1 60⌋
  pad2 hours ++ ":" ++ pad2 minutes ++ ":" ++ pad2 secs ++ sep ++ pad3 milliseconds

/-- Method `seconds_to_vtt_time` (line 144). -/
def seconds_to_vtt_time (seconds : ℚ) : String := seconds_to_time seconds "."

/-- Method `seconds_to_srt_time` (line 148). -/
def seconds_to_srt_time (seconds : ℚ) : String := seconds_to_time seconds ","

/-- Method `_capitalize_text` (lines 152-155): strip, then upper-case the first
character (`Char.toUpper` models `str.upper` on the single first code point;
exact for the ASCII range, identity for caseless scripts). -/
def capitalize_text (text : String) : String :=
  let t := pyStrip text
  match t.toList with
  | [] => t
  | c :: rest => String.mk (c.toUpper :: rest)

/-- Method `_format_vtt_segment` (lines 157-162). -/
def format_vtt_segment (text : String) (start_time end_time : ℚ) : String :=
  seconds_to_vtt_time start_time ++ " --> " ++ seconds_to_vtt_time end_time ++
    "\n" ++ capitalize_text text ++ "\n"

/-- Method `_format_srt_segment` (lines 164-169). -/
def format_srt_segment (index : Nat) (text : String) (start_time end_time : ℚ) :
    String :=
  toString index ++ "\n" ++ seconds_to_srt_time start_time ++ " --> " ++
    seconds_to_srt_time end_time ++ "\n" ++ capitalize_text text ++ "\n"

/-- Output format selector (`SubtitleFormat = Literal["vtt", "srt"]`). -/
inductive SubFormat | vtt | srt
deriving DecidableEq, Repr

/-- The `for idx, subtitle in enumerate(subtitles, start=1)` loop of
`_format_subtitles` (lines 58-69), carrying the running `enumerate` counter:
`if not text: continue` skips the cue but `idx` still advances, because
`enumerate` numbers every element of the input list. -/
def formatItemsGo (fmt : SubFormat) (idx : Nat) : List Cue → List String
  | [] => []
  | c :: rest =>
    if c.msg = "" then formatItemsGo fmt (idx + 1) rest
    else
      (match fmt with
       | .vtt => format_vtt_segment c.msg c.start_time c.end_time
       | .srt => format_srt_segment idx c.msg c.start_time c.end_time) ::
        formatItemsGo fmt (idx + 1) rest

/-- Method `AudioSubtitler._format_subtitles(subtitles, format)` (lines 54-74). -/
def format_subtitles (subtitles : List Cue) (fmt : SubFormat) : String :=
  let items := formatItemsGo fmt 1 subtitles
  match fmt with
  | .vtt => "WEBVTT\n\n" ++ String.intercalate "\n" items
  | .srt => String.intercalate "\n" items

/-- The §4.2 time-formatting rule exactly as the spec words it (`millis`
computed from the *original* seconds value, before the `mod 3600`
reduction); compared against the code's `seconds_to_time`. -/
def specTimeString (seconds : ℚ) (sep : String) : String :=
  let hours : ℤ := ⌊seconds / 3600⌋
  let r : ℚ := pyMod seconds 3600
  let minutes : ℤ := ⌊r / 60⌋
  let secs : ℤ := ⌊pyMod r 60⌋
  let millis : ℤ := ⌊seconds * 1000⌋ % 1000
  pad2 hours ++ ":" ++ pad2 minutes ++ ":" ++ pad2 secs ++ sep ++ pad3 millis

/-! ## Job queue / worker pool (`src/queue_manager.py`)

The manager runs on asyncio's single-threaded cooperative scheduler, so every
bookkeeping mutation between awaits is atomic.  We model it as a labelled
state machine: job ids are `Nat` (fresh `uuid4` values become a freshness
hypothesis), wall-clock reads (`datetime.now()`) are `Nat` inputs to the steps,
and the `bytes` payload is an opaque `Nat`. -/

/-- Enum `JobStatus` (lines 11-15): exactly four values. -/
inductive JobStatus | pending | processing | completed | failed
deriving DecidableEq, Repr

/-- A `Job` record (lines 18-29). -/
structure Job where
  audio_data : Nat
  filename : String
  language : Option String
  status : JobStatus
  result : Option String
  error : Option String
  created_at : Nat
  started_at : Option Nat
  completed_at : Option Nat
deriving DecidableEq, Repr

/-- The manager's mutable state: the `self.jobs` dict (as an association list,
keys unique in every reachable state), the bounded `asyncio.Queue` (`queue`,
FIFO, plus the FIFO list of coroutines suspended inside `queue.put` when it
was full — `blocked`), the jobs currently held by workers between `get` and
`task_done` (`inflight`), `maxsize`, and `num_workers`. -/
structure QState where
  jobs : List (Nat × Job)
  queue : List Nat
  blocked : List Nat
  inflight : List Nat
  maxsize : Nat
  num_workers : Nat
deriving DecidableEq, Repr

/-- Constructor `TranscriptionQueueManager.__init__` (lines 33-38). -/
def initState (num_workers max_queue_size : Nat) : QState :=
  { jobs := [], queue := [], blocked := [], inflight := [],
    maxsize := max_queue_size, num_workers := num_workers }

/-- Dict lookup (first entry wins; keys are unique in reachable states). -/
def lookupJob : List (Nat × Job) → Nat → Option Job
  | [], _ => none
  | p :: rest, id => if p.1 = id then some p.2 else lookupJob rest id

/-- Dict read `self.jobs.get(job_id)`. -/
def QState.lookup (s : QState) (id : Nat) : Option Job :=
  lookupJob s.jobs id

/-- In-place mutation of the job object stored under `id` (Python mutates the
shared `Job` object; keys are unique in reachable states, so updating the
entry for `id` is the same thing). -/
def updateJob (jobs : List (Nat × Job)) (id : Nat) (f : Job → Job) :
    List (Nat × Job) :=
  jobs.map (fun p => if p.1 = id then (p.1, f p.2) else p)

/-- Result of a `submit_job` call. -/
inductive SubmitOutcome
  /-- `await self.queue.put(job)` returned at once and `submit_job` returned
  the job id. -/
  | accepted (id : Nat)
  /-- the queue was at capacity, so `await self.queue.put(job)` suspended the
  calling coroutine until a slot frees (an `asyncio.Queue.put` waiter);
  `submit_job` has not returned.  NOTE: the source's
  `except asyncio.QueueFull` handler (lines 68-71), which would mark the job
  `Failed`, is unreachable: the *awaited* `put` waits instead of raising
  (`QueueFull` is raised only by `put_nowait`). -/
  | blocked (id : Nat)
deriving DecidableEq, Repr

/-- Method `submit_job` (lines 60-73): register a fresh `Job` in `self.jobs`, then
`await self.queue.put(job)` — append to the queue if below capacity, else
suspend as a put-waiter. -/
def submit_job (s : QState) (id : Nat) (audio_data : Nat) (filename : String)
    (language : Option String) (now : Nat) : SubmitOutcome × QState :=
  let job : Job :=
    { audio_data := audio_data, filename := filename, language := language,
      status := .pending, result := none, error := none,
      created_at := now, started_at := none, completed_at := none }
  let s := { s with jobs := (id, job) :: s.jobs }
  if s.queue.length < s.maxsize then
    (.accepted id, { s with queue := s.queue ++ [id] })
  else
    (.blocked id, { s with blocked := s.blocked ++ [id] })

/-- The snapshot dict built by `get_job_status` (lines 75-95). -/
structure StatusInfo where
  job_id : Nat
  status : JobStatus
  filename : String
  created_at : Nat
  started_at : Option Nat
  completed_at : Option Nat
  result : Option String
  error : Option String
deriving DecidableEq, Repr

/-- Method `get_job_status(job_id)` (lines 75-95): `None` on unknown id, else a
point-in-time copy of the public fields; `result` only when `COMPLETED`,
`error` only when `FAILED`. -/
def get_job_status (s : QState) (id : Nat) : Option StatusInfo :=
  match s.lookup id with
  | none => none
  | some job => some
    { job_id := id, status := job.status, filename := job.filename,
      created_at := job.created_at, started_at := job.started_at,
      completed_at := job.completed_at,
      result := if job.status = .completed then job.result else none,
      error := if job.status = .failed then job.error else none }

/-- The dict returned by `get_queue_info` (lines 97-113). -/
structure QueueInfo where
  workers : Nat
  queue_size : Nat
  max_queue_size : Nat
  total_jobs : Nat
  pending : Nat
  processing : Nat
  completed : Nat
  failed : Nat
deriving DecidableEq, Repr

/-- Method `get_queue_info` (lines 97-113): one independent scan of `self.jobs` per
counter. -/
def get_queue_info (s : QState) : QueueInfo :=
  { workers := s.num_workers,
    queue_size := s.queue.length,
    max_queue_size := s.maxsize,
    total_jobs := s.jobs.length,
    pending := (s.jobs.filter (fun p => p.2.status = .pending)).length,
    processing := (s.jobs.filter (fun p => p.2.status = .processing)).length,
    completed := (s.jobs.filter (fun p => p.2.status = .completed)).length,
    failed := (s.jobs.filter (fun p => p.2.status = .failed)).length }

/-- The atomic scheduler steps of the manager.  Each constructor is one
uninterrupted bookkeeping block of `queue_manager.py`; waiting (worker poll
timeout, a blocked `put`) and the offloaded transcription call happen between
steps.  `get_job_status` / `get_queue_info` are pure reads and do not step the
state. -/
inductive Step : QState → QState → Prop
  /-- a `submit_job` call with a fresh `uuid4` id (either outcome). -/
  | submit (s : QState) (id audio_data : Nat) (filename : String)
      (language : Option String) (now : Nat)
      (fresh : s.lookup id = none) :
      Step s (submit_job s id audio_data filename language now).2
  /-- a coroutine suspended in `queue.put` resumes when a slot frees and
  completes its enqueue (asyncio wakes waiters in FIFO order). -/
  | resume (s : QState) (id : Nat) (rest : List Nat)
      (hb : s.blocked = id :: rest) (room : s.queue.length < s.maxsize) :
      Step s { s with blocked := rest, queue := s.queue ++ [id] }
  /-- `_worker` lines 122-127: `queue.get()` returns the FIFO head; the worker
  marks it `PROCESSING` and records `started_at` before the next await. -/
  | take (s : QState) (id : Nat) (rest : List Nat) (now : Nat)
      (hq : s.queue = id :: rest) :
      Step s { s with queue := rest,
                      inflight := id :: s.inflight,
                      jobs := updateJob s.jobs id (fun j =>
                        { j with status := .processing,
                                 started_at := some now }) }
  /-- `_worker` lines 140-144: the offloaded transcription returned
  `vtt_content`; mark `COMPLETED` (and `task_done`). -/
  | finish_ok (s : QState) (id : Nat) (vtt : String) (now : Nat)
      (hin : id ∈ s.inflight) :
      Step s { s with inflight := s.inflight.erase id,
                      jobs := updateJob s.jobs id (fun j =>
                        { j with status := .completed,
                                 result := some vtt,
                                 completed_at := some now }) }
  /-- `_worker` lines 146-151: the transcription (or rendering) raised; store
  `str(e)`, mark `FAILED` (and `task_done`). -/
  | finish_err (s : QState) (id : Nat) (msg : String) (now : Nat)
      (hin : id ∈ s.inflight) :
      Step s { s with inflight := s.inflight.erase id,
                      jobs := updateJob s.jobs id (fun j =>
                        { j with status := .failed,
                                 error := some msg,
                                 completed_at := some now }) }

/-- States reachable from a freshly constructed manager by the scheduler
steps. -/
inductive Reachable : QState → Prop
  | init (num_workers max_queue_size : Nat) :
      Reachable (initState num_workers max_queue_size)
  | step {s s' : QState} : Reachable s → Step s s' → Reachable s'

/-- Zero or more scheduler steps. -/
inductive Steps : QState → QState → Prop
  | refl (s : QState) : Steps s s
  | tail {s t u : QState} : Steps s t → Step t u → Steps s u

/-- A terminal status: `COMPLETED` or `FAILED`. -/
def JobStatus.terminal : JobStatus → Prop
  | .completed => True
  | .failed => True
  | _ => False

/-- One worker iteration on the queue head (`_worker` lines 122-154),
deterministically: take the head (→ `PROCESSING`, `started_at`), run the
offloaded transcription — its outcome given by the `oracle`, an exception
being `Except.error str(e)` — and record the terminal state.  This is the
composition of the `Step.take` and `Step.finish_*` scheduler steps. -/
def workerCycle (oracle : Nat → Except String String) (now : Nat)
    (s : QState) (id : Nat) (rest : List Nat) : QState :=
  let s1 : QState :=
    { s with queue := rest, inflight := id :: s.inflight,
             jobs := updateJob s.jobs id (fun j =>
               { j with status := .processing, started_at := some now }) }
  match oracle id with
  | .ok vtt =>
    { s1 with inflight := s1.inflight.erase id,
              jobs := updateJob s1.jobs id (fun j =>
                { j with status := .completed, result := some vtt,
                         completed_at := some now }) }
  | .error msg =>
    { s1 with inflight := s1.inflight.erase id,
              jobs := updateJob s1.jobs id (fun j =>
                { j with status := .failed, error := some msg,
                         completed_at := some now }) }

/-- A worker loop consuming the job ids `l` in FIFO order. -/
def drainGo (oracle : Nat → Except String String) (now : Nat) :
    QState → List Nat → QState
  | s, [] => s
  | s, id :: rest => drainGo oracle now (workerCycle oracle now s id rest) rest

/-- A worker draining the entire queue. -/
def drainQueue (s : QState) (oracle : Nat → Except String String)
    (now : Nat) : QState :=
  drainGo oracle now s s.queue

/-- The terminal record a worker leaves for job `id` with original record
`j`: `COMPLETED` with the rendered text, or `FAILED` with the stored error
message — `completed_at` recorded either way. -/
def finishedJob (oracle : Nat → Except String String) (now : Nat) (id : Nat)
    (j : Job) : Job :=
  match oracle id with
  | .ok vtt => { j with status := .completed, started_at := some now,
                        result := some vtt, completed_at := some now }
  | .error msg => { j with status := .failed, started_at := some now,
                           error := some msg, completed_at := some now }

/-- Concrete trace states: one job through submit/take/fail on a
single-worker capacity-1 manager, then a second submission. -/
def exC5job : Job :=
  { audio_data := 7, filename := "a.mp3", language := none, status := .failed,
    result := none, error := some "boom", created_at := 0,
    started_at := some 1, completed_at := some 2 }

def exC5s1 : QState := (submit_job (initState 1 1) 0 7 "a.mp3" none 0).2

def exC5s2 : QState :=
  { exC5s1 with queue := [], inflight := 0 :: exC5s1.inflight,
                jobs := updateJob exC5s1.jobs 0 (fun j =>
                  { j with status := .processing, started_at := some 1 }) }

def exC5s3 : QState :=
  { exC5s2 with inflight := exC5s2.inflight.erase 0,
                jobs := updateJob exC5s2.jobs 0 (fun j =>
                  { j with status := .failed, error := some "boom",
                           completed_at := some 2 }) }

def exC5s4 : QState := (submit_job exC5s3 1 8 "b.mp3" none 3).2

/-- Concrete two-job state: jobs 0 and 1 queued on a fresh manager. -/
def exC9s : QState :=
  (submit_job ((submit_job (initState 1 5) 0 7 "a.mp3" none 0).2)
    1 8 "b.mp3" none 1).2

/-- A transcription oracle whose first job raises and whose others
succeed. -/
def exC9oracle : Nat → Except String String :=
  fun i => if i = 0 then Except.error "decode failed" else Except.ok "WEBVTT"

def exC9jobA : Job :=
  { audio_data := 7, filename := "a.mp3", language := none,
    status := .pending, result := none, error := none, created_at := 0,
    started_at := none, completed_at := none }

def exC9jobB : Job :=
  { audio_data := 8, filename := "b.mp3", language := none,
    status := .pending, result := none, error := none, created_at := 1,
    started_at := none, completed_at := none }

/-- The state invariant maintained by every scheduler step: queued and
blocked jobs are registered and `PENDING`, in-flight jobs are registered and
`PROCESSING`, no list holds an id twice, the three lists are pairwise
disjoint, and the job map's keys are unique. -/
def Inv (s : QState) : Prop :=
  (∀ id ∈ s.queue, ∃ j, s.lookup id = some j ∧ j.status = .pending) ∧
  (∀ id ∈ s.blocked, ∃ j, s.lookup id = some j ∧ j.status = .pending) ∧
  (∀ id ∈ s.inflight, ∃ j, s.lookup id = some j ∧ j.status = .processing) ∧
  (s.queue.Nodup ∧ s.blocked.Nodup ∧ s.inflight.Nodup) ∧
  (s.queue.Disjoint s.blocked ∧ s.queue.Disjoint s.inflight ∧
    s.blocked.Disjoint s.inflight) ∧
  (s.jobs.map Prod.fst).Nodup

/-! ## Segmentation lemmas -/

theorem boundaryBump_subtitles (segment : RawSegment) (n : Nat) (st : SegState)
    (w : Word) : (boundaryBump segment n st w).subtitles = st.subtitles := by
  simp only [boundaryBump]
  split_ifs <;> rfl

/-- Every cue present after one word-loop iteration was either already there,
or was emitted in this iteration — in which case it satisfies the emission
guard and its end time is the current word's own end timestamp. -/
theorem processWord_subtitles_sub (segment : RawSegment) (n : Nat) (st : SegState)
    (w : Word) :
    ∀ c ∈ (processWord segment n st w).subtitles,
      c ∈ st.subtitles ∨
        (c.start_time < c.end_time ∧ pyStrip c.msg ≠ "" ∧ c.end_time = w.endt) := by
  intro c hc
  cases hseg : st.is_segmented <;>
    simp only [processWord, hseg, Bool.false_eq_true, if_true, if_false,
      boundaryBump] at hc <;>
  · split at hc
    case isTrue =>
      split at hc
      case isTrue => exact .inl hc
      case isFalse =>
        split at hc
        case isTrue h =>
          split_ifs at hc <;>
            simp only [List.mem_append, List.mem_singleton] at hc <;>
            first
              | exact .inl hc
              | (rcases hc with hc | rfl
                 · exact .inl hc
                 · exact .inr ⟨h.1, h.2, rfl⟩)
        case isFalse h =>
          split_ifs at hc <;> exact .inl hc
    case isFalse =>
      split_ifs at hc <;> exact .inl hc

/-- Folding the word loop only ever appends guard-satisfying cues. -/
theorem foldl_processWord_sub (segment : RawSegment) (n : Nat) :
    ∀ (ws : List Word) (st : SegState) (c : Cue),
      c ∈ (ws.foldl (processWord segment n) st).subtitles →
      c ∈ st.subtitles ∨ (c.start_time < c.end_time ∧ pyStrip c.msg ≠ "")
  | [], _, _, hc => .inl hc
  | w :: ws, st, c, hc => by
    rcases foldl_processWord_sub segment n ws (processWord segment n st w) c hc with
      h | h
    · rcases processWord_subtitles_sub segment n st w c h with h' | h'
      · exact .inl h'
      · exact .inr ⟨h'.1, h'.2.1⟩
    · exact .inr h

/-- Per raw segment: cues not inherited from the accumulator satisfy the
emission guard. -/
theorem processSegment_sub (acc : List Cue × Nat) (segment : RawSegment) :
    ∀ c ∈ (processSegment acc segment).1,
      c ∈ acc.1 ∨ (c.start_time < c.end_time ∧ pyStrip c.msg ≠ "") := by
  intro c hc
  simp only [processSegment] at hc
  split at hc
  case isTrue =>
    exact foldl_processWord_sub segment segment.words.length segment.words _ c hc
  case isFalse =>
    split at hc
    case isTrue h =>
      simp only [List.mem_append, List.mem_singleton] at hc
      rcases hc with hc | rfl
      · exact foldl_processWord_sub segment segment.words.length segment.words _ c hc
      · exact .inr ⟨h.1, h.2⟩
    case isFalse =>
      exact foldl_processWord_sub segment segment.words.length segment.words _ c hc

theorem foldl_processSegment_sub :
    ∀ (segments : List RawSegment) (acc : List Cue × Nat) (c : Cue),
      c ∈ (segments.foldl processSegment acc).1 →
      c ∈ acc.1 ∨ (c.start_time < c.end_time ∧ pyStrip c.msg ≠ "")
  | [], _, _, hc => .inl hc
  | seg :: segments, acc, c, hc => by
    rcases foldl_processSegment_sub segments (processSegment acc seg) c hc with h | h
    · rcases processSegment_sub acc seg c h with h' | h'
      · exact .inl h'
      · exact .inr h'
    · exact .inr h

theorem processSegment_wordCount (acc : List Cue × Nat) (segment : RawSegment) :
    (processSegment acc segment).2 = acc.2 + segment.words.length := by
  simp only [processSegment]
  split_ifs <;> rfl

theorem foldl_processSegment_wordCount :
    ∀ (segments : List RawSegment) (acc : List Cue × Nat),
      (segments.foldl processSegment acc).2 =
        acc.2 + (segments.map (fun s => s.words.length)).sum
  | [], acc => by simp
  | seg :: segments, acc => by
    simp only [List.foldl_cons, List.map_cons, List.sum_cons]
    rw [foldl_processSegment_wordCount segments, processSegment_wordCount]
    omega

/-! ## Claim theorems for the segmentation engine -/

/-- C6: on `[("Hello", 0.0, 0.5), (" world.", 0.5, 1.0)]` segmentation yields
exactly one cue `{"Hello world", 0.0, 1.0}` with `word_count = 2`; on
`[("Hello.", 0.0, 0.5), (" How", 0.6, 0.8), (" are", 0.8, 1.0),
(" you?", 1.0, 1.5)]` exactly the two cues `{"Hello", 0.0, 0.5}` and
`{" How are you", 0.6, 1.5}` with `word_count = 4`; and in general
`word_count` is the total number of word tokens of the input segments,
independent of how many cues are produced. -/
theorem segmentation_examples_and_wordCount :
    segments_to_subtitle
        [{ text := "Hello world.", start := 0, endt := 1,
           words := [⟨"Hello", 0, Rat.divInt 1 2⟩, ⟨" world.", Rat.divInt 1 2, 1⟩] }] =
      ([⟨"Hello world", 0, 1⟩], 2) ∧
    segments_to_subtitle
        [{ text := "Hello. How are you?", start := 0, endt := Rat.divInt 3 2,
           words := [⟨"Hello.", 0, Rat.divInt 1 2⟩,
                     ⟨" How", Rat.divInt 3 5, Rat.divInt 4 5⟩,
                     ⟨" are", Rat.divInt 4 5, 1⟩,
                     ⟨" you?", 1, Rat.divInt 3 2⟩] }] =
      ([⟨"Hello", 0, Rat.divInt 1 2⟩,
        ⟨" How are you", Rat.divInt 3 5, Rat.divInt 3 2⟩], 4) ∧
    ∀ segments : List RawSegment,
      (segments_to_subtitle segments).2 =
        (segments.map (fun s => s.words.length)).sum :=
  ⟨by decide, by decide, fun segments => by
    simpa using foldl_processSegment_wordCount segments ([], 0)⟩

/-- C7: every cue ever emitted by `segments_to_subtitle` has strictly
`start_time < end_time` and text that is non-empty after stripping
whitespace — both emission sites are guarded by exactly this condition. -/
theorem cue_invariant (segments : List RawSegment) (c : Cue)
    (hc : c ∈ (segments_to_subtitle segments).1) :
    c.start_time < c.end_time ∧ pyStrip c.msg ≠ "" := by
  rcases foldl_processSegment_sub segments ([], 0) c hc with h | h
  · simp at h
  · exact h

/-- Witness for `cue_invariant` at the two-word "Hello world." input. -/
theorem cue_invariant_witness :
    ((⟨"Hello world", 0, 1⟩ : Cue) ∈
      (segments_to_subtitle
        [{ text := "Hello world.", start := 0, endt := 1,
           words := [⟨"Hello", 0, Rat.divInt 1 2⟩,
                     ⟨" world.", Rat.divInt 1 2, 1⟩] }]).1) ∧
    ((0:ℚ) < 1 ∧ pyStrip "Hello world" ≠ "") :=
  ⟨by decide,
   cue_invariant
     [{ text := "Hello world.", start := 0, endt := 1,
        words := [⟨"Hello", 0, Rat.divInt 1 2⟩, ⟨" world.", Rat.divInt 1 2, 1⟩] }]
     ⟨"Hello world", 0, 1⟩ (by decide)⟩

/-- C2 counterexample: a raw segment `{start 0, end 2}` whose single word
`("Hi.", 0, 1)` ends a cue has `rawSegment.end = 2 > 1 = lastWord.end`, yet
the emitted cue's end time is `1` (the word's end), not `2`: the source's
widening line runs only *after* the cue was already appended and in any case
assigns `word.end`, not `segment.end`. -/
theorem segment_end_not_widened :
    segments_to_subtitle
        [{ text := "Hi.", start := 0, endt := 2, words := [⟨"Hi.", 0, 1⟩] }] =
      ([⟨"Hi", 0, 1⟩], 1) ∧
    ((2:ℚ) > 1 ∧ (1:ℚ) ≠ 2) := by
  constructor
  · decide
  · constructor
    · decide
    · decide

/-- C2 amended: a cue emitted while processing word `w` always carries
`w`'s own end timestamp — the emitted end never becomes `rawSegment.end`,
whether or not `rawSegment.end > w.end`. -/
theorem cue_end_is_word_end (segment : RawSegment) (n : Nat) (st : SegState)
    (w : Word) (c : Cue) (hc : c ∈ (processWord segment n st w).subtitles) :
    c ∈ st.subtitles ∨ c.end_time = w.endt :=
  (processWord_subtitles_sub segment n st w c hc).imp id (fun h => h.2.2)

/-- Witness for `cue_end_is_word_end` at the single-word "Hi." segment. -/
theorem cue_end_is_word_end_witness :
    ((⟨"Hi", 0, 1⟩ : Cue) ∈
      (processWord ⟨"Hi.", 0, 2, [⟨"Hi.", 0, 1⟩]⟩ 1
        ⟨[], 0, 0, "", false, 0⟩ ⟨"Hi.", 0, 1⟩).subtitles) ∧
    ((⟨"Hi", 0, 1⟩ : Cue) ∈ ([] : List Cue) ∨ (1:ℚ) = 1) :=
  ⟨by decide,
   cue_end_is_word_end ⟨"Hi.", 0, 2, [⟨"Hi.", 0, 1⟩]⟩ 1
     ⟨[], 0, 0, "", false, 0⟩ ⟨"Hi.", 0, 1⟩ ⟨"Hi", 0, 1⟩ (by decide)⟩

/-- C3 counterexample: segment `{start 0.3, end 1}` with words
`[(".", 0.5, 0.6), (" hi", 0.6, 1.0)]`.  The lone stop character "." is
skipped with the accumulation left open at `start = 0.5`, but the `continue`
also skipped the `words_idx` increment, so the first-word widening check
re-fires on `" hi"` (`0.3 < 0.6`) and overwrites the start: the next emitted
cue starts at `0.6` (a later word), not `0.5` (the first word of the open
accumulation). -/
theorem lone_stop_start_overwritten :
    segments_to_subtitle
        [{ text := ". hi", start := Rat.divInt 3 10, endt := 1,
           words := [⟨".", Rat.divInt 1 2, Rat.divInt 3 5⟩,
                     ⟨" hi", Rat.divInt 3 5, 1⟩] }] =
      ([⟨" hi", Rat.divInt 3 5, 1⟩], 2) ∧
    Rat.divInt 3 5 ≠ Rat.divInt 1 2 := by
  constructor
  · decide
  · decide

/-- C3 amended: when stripping the trailing stop character empties the
buffer, the iteration emits nothing and keeps the accumulator open — the
active flag stays (or becomes) `true`, the accumulated start is preserved
(or set to this word's start if the accumulator was inactive), and — the
part the original claim misses — `words_idx` is *not* incremented, which is
what later allows the first-word widening check to overwrite the kept start
(see `lone_stop_start_overwritten`). -/
theorem lone_stop_keeps_accumulator (segment : RawSegment) (n : Nat)
    (st : SegState) (w : Word)
    (hstop : end_with_stop_char w.word = true)
    (hempty : (st.seg_text ++ w.word).dropRight 1 = "") :
    processWord segment n st w =
      { subtitles := st.subtitles,
        seg_start := if st.is_segmented then st.seg_start else w.start,
        seg_end := w.endt, seg_text := "", is_segmented := true,
        words_idx := st.words_idx } := by
  cases hseg : st.is_segmented <;>
    simp [processWord, hseg, hstop, hempty]

/-! ## Claim theorems for the renderer -/

/-- Evaluation helper: the rendered SRT timestamp of `0` seconds. -/
theorem srt_time_zero : seconds_to_time 0 "," = "00:00:00,000" := by
  have h1 : pyMod (0:ℚ) 3600 = 0 := by unfold pyMod; norm_num
  have h2 : pyMod (0:ℚ) 60 = 0 := by unfold pyMod; norm_num
  simp only [seconds_to_time, h1, h2]
  norm_num
  decide

/-- Evaluation helper: the rendered SRT timestamp of `1` second. -/
theorem srt_time_one : seconds_to_time 1 "," = "00:00:01,000" := by
  have h1 : pyMod (1:ℚ) 3600 = 1 := by unfold pyMod; norm_num
  have h2 : pyMod (1:ℚ) 60 = 1 := by unfold pyMod; norm_num
  have h3 : (⌊(1:ℚ) * 1000⌋ : ℤ) = 1000 := by norm_num
  simp only [seconds_to_time, h1, h2, h3]
  norm_num
  decide

/-- Evaluation helper: the rendered SRT timestamp of `2` seconds. -/
theorem srt_time_two : seconds_to_time 2 "," = "00:00:02,000" := by
  have h1 : pyMod (2:ℚ) 3600 = 2 := by unfold pyMod; norm_num
  have h2 : pyMod (2:ℚ) 60 = 2 := by unfold pyMod; norm_num
  have h3 : (⌊(2:ℚ) * 1000⌋ : ℤ) = 2000 := by norm_num
  simp only [seconds_to_time, h1, h2, h3]
  norm_num
  decide

/-- C4 counterexample: rendering `[{msg = "", 0…1}, {msg = "hi", 1…2}]` as
SRT skips the empty cue but the surviving block carries index `2`, not
index `1` as "consecutive counting only rendered cues" would require —
`enumerate` numbers all input cues, so a skipped cue does consume a slot. -/
theorem srt_skipped_cue_consumes_index :
    format_subtitles [⟨"", 0, 1⟩, ⟨"hi", 1, 2⟩] .srt =
      "2\n00:00:01,000 --> 00:00:02,000\nHi\n" ∧
    ("2\n00:00:01,000 --> 00:00:02,000\nHi\n" : String) ≠
      "1\n00:00:01,000 --> 00:00:02,000\nHi\n" := by
  constructor
  · show String.intercalate "\n" [format_srt_segment 2 "hi" 1 2] = _
    simp only [format_srt_segment, seconds_to_srt_time, srt_time_one, srt_time_two]
    decide
  · decide

/-- C4 amended: a cue is skipped only when its text is the *empty string*
(`if not text`), and each rendered SRT block's index is the cue's absolute
1-based position in the input list (the `enumerate` counter), not a count of
rendered blocks; a whitespace-only cue is not skipped and renders a block
whose text line is empty. -/
theorem srt_index_is_input_position :
    (∀ (fmt : SubFormat) (k : Nat) (subs : List Cue),
      formatItemsGo fmt k subs = (subs.enumFrom k).filterMap (fun p =>
        if p.2.msg = "" then none
        else some (match fmt with
          | .vtt => format_vtt_segment p.2.msg p.2.start_time p.2.end_time
          | .srt => format_srt_segment p.1 p.2.msg p.2.start_time p.2.end_time))) ∧
    format_subtitles [⟨" ", 0, 1⟩] .srt =
      "1\n00:00:00,000 --> 00:00:01,000\n\n" := by
  constructor
  · intro fmt k subs
    induction subs generalizing k with
    | nil => rfl
    | cons c rest ih =>
      simp only [formatItemsGo, List.enumFrom, List.filterMap]
      split_ifs with h
      · simp only [h, if_pos rfl] at ih ⊢
        exact ih (k + 1)
      · simp only [if_neg h]
        rw [ih (k + 1)]
  · show String.intercalate "\n" [format_srt_segment 1 " " 0 1] = _
    simp only [format_srt_segment, seconds_to_srt_time, srt_time_zero, srt_time_one]
    decide

/-- C8: for every nonnegative exact time value the code's rendering agrees
with the spec formula (zero-padded `HH:MM:SS`, separator, 3-digit millis with
`millis = ⌊seconds·1000⌋ mod 1000`); in particular `3661.123` renders as
`"01:01:01.123"` (vtt) / `"01:01:01,123"` (srt) and `0` as
`"00:00:00.000"`. -/
theorem time_format_matches_spec :
    (∀ (q : ℚ) (sep : String), 0 ≤ q →
      seconds_to_time q sep = specTimeString q sep) ∧
    seconds_to_time (3661.123 : ℚ) "." = "01:01:01.123" ∧
    seconds_to_time (3661.123 : ℚ) "," = "01:01:01,123" ∧
    seconds_to_time 0 "." = "00:00:00.000" := by
  refine ⟨?_, ?_, ?_, ?_⟩
  · intro q sep _
    have hsub : pyMod q 3600 * 1000 = q * 1000 - ((3600000 * ⌊q / 3600⌋ : ℤ) : ℚ) := by
      unfold pyMod; push_cast; ring
    have key : (⌊pyMod q 3600 * 1000⌋ : ℤ) % 1000 = ⌊q * 1000⌋ % 1000 := by
      rw [hsub, Int.floor_sub_int]
      omega
    simp only [seconds_to_time, specTimeString, key]
  · have h0 : (⌊(3661.123:ℚ) / 3600⌋ : ℤ) = 1 := by norm_num
    have h1 : pyMod (3661.123:ℚ) 3600 = (61123:ℚ)/1000 := by
      unfold pyMod; rw [h0]; norm_num
    have h2 : (⌊((61123:ℚ)/1000) / 60⌋ : ℤ) = 1 := by norm_num
    have h3 : pyMod ((61123:ℚ)/1000) 60 = (1123:ℚ)/1000 := by
      unfold pyMod; rw [h2]; norm_num
    have h4 : (⌊((61123:ℚ)/1000) * 1000⌋ : ℤ) = 61123 := by norm_num
    have h5 : (⌊(1123:ℚ)/1000⌋ : ℤ) = 1 := by norm_num
    simp only [seconds_to_time, h0, h1, h2, h3, h4, h5]
    decide
  · have h0 : (⌊(3661.123:ℚ) / 3600⌋ : ℤ) = 1 := by norm_num
    have h1 : pyMod (3661.123:ℚ) 3600 = (61123:ℚ)/1000 := by
      unfold pyMod; rw [h0]; norm_num
    have h2 : (⌊((61123:ℚ)/1000) / 60⌋ : ℤ) = 1 := by norm_num
    have h3 : pyMod ((61123:ℚ)/1000) 60 = (1123:ℚ)/1000 := by
      unfold pyMod; rw [h2]; norm_num
    have h4 : (⌊((61123:ℚ)/1000) * 1000⌋ : ℤ) = 61123 := by norm_num
    have h5 : (⌊(1123:ℚ)/1000⌋ : ℤ) = 1 := by norm_num
    simp only [seconds_to_time, h0, h1, h2, h3, h4, h5]
    decide
  · have h1 : pyMod (0:ℚ) 3600 = 0 := by unfold pyMod; norm_num
    have h2 : pyMod (0:ℚ) 60 = 0 := by unfold pyMod; norm_num
    simp only [seconds_to_time, h1, h2]
    norm_num
    decide

/-- Witness for `time_format_matches_spec` at `q = 3661.123`. -/
theorem time_format_matches_spec_witness :
    (0:ℚ) ≤ 3661.123 ∧
    seconds_to_time (3661.123 : ℚ) "," = specTimeString (3661.123 : ℚ) "," :=
  ⟨by norm_num, time_format_matches_spec.1 (3661.123 : ℚ) "," (by norm_num)⟩

/-- Witness for `lone_stop_keeps_accumulator`: an open accumulator meets a
lone ".". -/
theorem lone_stop_keeps_accumulator_witness :
    end_with_stop_char "." = true ∧
    (("" : String) ++ ".").dropRight 1 = "" ∧
    processWord ⟨"x", 0, 1, []⟩ 2
        ⟨[], Rat.divInt 1 2, Rat.divInt 3 5, "", true, 1⟩ ⟨".", Rat.divInt 3 5, 1⟩ =
      { subtitles := [],
        seg_start := if (⟨[], Rat.divInt 1 2, Rat.divInt 3 5, "", true, 1⟩ :
          SegState).is_segmented then Rat.divInt 1 2 else Rat.divInt 3 5,
        seg_end := 1, seg_text := "", is_segmented := true, words_idx := 1 } :=
  ⟨by decide, by decide,
   lone_stop_keeps_accumulator ⟨"x", 0, 1, []⟩ 2
     ⟨[], Rat.divInt 1 2, Rat.divInt 3 5, "", true, 1⟩ ⟨".", Rat.divInt 3 5, 1⟩
     (by decide) (by decide)⟩

/-! ## Queue-manager lemmas -/

theorem lookupJob_updateJob_self (jobs : List (Nat × Job)) (id : Nat)
    (f : Job → Job) :
    lookupJob (updateJob jobs id f) id = (lookupJob jobs id).map f := by
  induction jobs with
  | nil => rfl
  | cons p rest ih =>
    by_cases h : p.1 = id
    · simp [updateJob, lookupJob, h]
    · simp only [updateJob, List.map_cons, if_neg h]
      simp only [lookupJob, if_neg h]
      exact ih

theorem lookupJob_updateJob_ne (jobs : List (Nat × Job)) (id id' : Nat)
    (f : Job → Job) (h : id ≠ id') :
    lookupJob (updateJob jobs id f) id' = lookupJob jobs id' := by
  induction jobs with
  | nil => rfl
  | cons p rest ih =>
    by_cases hp : p.1 = id
    · subst hp
      simp only [updateJob, List.map_cons, if_true]
      show (if p.1 = id' then some (f p.2) else lookupJob (updateJob rest p.1 f) id') =
        (if p.1 = id' then some p.2 else lookupJob rest id')
      simp only [if_neg h]
      exact ih
    · simp only [updateJob, List.map_cons, if_neg hp]
      simp only [lookupJob]
      split_ifs <;> [rfl; exact ih]

theorem updateJob_keys (jobs : List (Nat × Job)) (id : Nat) (f : Job → Job) :
    (updateJob jobs id f).map Prod.fst = jobs.map Prod.fst := by
  induction jobs with
  | nil => rfl
  | cons p rest ih =>
    by_cases h : p.1 = id
    · show ((if p.1 = id then (p.1, f p.2) else p) :: updateJob rest id f).map
          Prod.fst = _
      rw [if_pos h]
      simpa using ih
    · show ((if p.1 = id then (p.1, f p.2) else p) :: updateJob rest id f).map
          Prod.fst = _
      rw [if_neg h]
      simpa using ih

theorem not_mem_keys_of_lookup_none (jobs : List (Nat × Job)) (id : Nat)
    (h : lookupJob jobs id = none) : id ∉ jobs.map Prod.fst := by
  induction jobs with
  | nil => simp
  | cons p rest ih =>
    rw [show lookupJob (p :: rest) id =
        if p.1 = id then some p.2 else lookupJob rest id from rfl] at h
    by_cases hp : p.1 = id
    · rw [if_pos hp] at h
      cases h
    · rw [if_neg hp] at h
      intro hm
      simp only [List.map_cons, List.mem_cons] at hm
      rcases hm with h1 | h1
      · exact hp h1.symm
      · exact ih h h1

theorem lookup_cons_self (jobs : List (Nat × Job)) (id : Nat) (jb : Job) :
    lookupJob ((id, jb) :: jobs) id = some jb := by
  show (if id = id then some jb else lookupJob jobs id) = some jb
  rw [if_pos rfl]

theorem lookup_cons_of_ne (jobs : List (Nat × Job)) (id id' : Nat) (jb : Job)
    (h : id ≠ id') : lookupJob ((id, jb) :: jobs) id' = lookupJob jobs id' := by
  show (if id = id' then some jb else lookupJob jobs id') = _
  rw [if_neg h]

theorem ne_of_lookup_none_some {s : QState} {id id' : Nat}
    (hfresh : s.lookup id = none) {j : Job} (hj : s.lookup id' = some j) :
    id ≠ id' := by
  rintro rfl
  rw [hfresh] at hj
  cases hj

theorem inv_init (w m : Nat) : Inv (initState w m) := by
  refine ⟨?_, ?_, ?_, ?_, ?_, ?_⟩ <;> simp [initState, List.Disjoint]

/-- Lemma: `submit_job` preserves the invariant (either admission outcome). -/
theorem inv_submit (s : QState) (id a : Nat) (f : String) (l : Option String)
    (t : Nat) (hInv : Inv s) (fresh : s.lookup id = none) :
    Inv (submit_job s id a f l t).2 := by
  obtain ⟨hq, hb, hin, ⟨hndq, hndb, hndi⟩, ⟨hdqb, hdqi, hdbi⟩, hkeys⟩ := hInv
  have hneq : ∀ id' ∈ s.queue, id ≠ id' := fun id' h =>
    ne_of_lookup_none_some fresh (hq id' h).choose_spec.1
  have hneb : ∀ id' ∈ s.blocked, id ≠ id' := fun id' h =>
    ne_of_lookup_none_some fresh (hb id' h).choose_spec.1
  have hnei : ∀ id' ∈ s.inflight, id ≠ id' := fun id' h =>
    ne_of_lookup_none_some fresh (hin id' h).choose_spec.1
  simp only [submit_job]
  split_ifs with hroom
  · refine ⟨?_, ?_, ?_, ⟨?_, hndb, hndi⟩, ⟨?_, ?_, hdbi⟩, ?_⟩
    · intro id' hid'
      have hid2 : id' ∈ s.queue ++ [id] := hid'
      rcases List.mem_append.mp hid2 with hold | hnew
      · obtain ⟨j, hj, hp⟩ := hq id' hold
        refine ⟨j, ?_, hp⟩
        show lookupJob ((id, _) :: s.jobs) id' = some j
        rw [lookup_cons_of_ne _ _ _ _ (hneq id' hold)]
        exact hj
      · have : id' = id := by simpa using hnew
        subst this
        exact ⟨⟨a, f, l, .pending, none, none, t, none, none⟩,
          lookup_cons_self _ _ _, rfl⟩
    · intro id' hid'
      have hid2 : id' ∈ s.blocked := hid'
      obtain ⟨j, hj, hp⟩ := hb id' hid2
      refine ⟨j, ?_, hp⟩
      show lookupJob ((id, _) :: s.jobs) id' = some j
      rw [lookup_cons_of_ne _ _ _ _ (hneb id' hid2)]
      exact hj
    · intro id' hid'
      have hid2 : id' ∈ s.inflight := hid'
      obtain ⟨j, hj, hp⟩ := hin id' hid2
      refine ⟨j, ?_, hp⟩
      show lookupJob ((id, _) :: s.jobs) id' = some j
      rw [lookup_cons_of_ne _ _ _ _ (hnei id' hid2)]
      exact hj
    · show (s.queue ++ [id]).Nodup
      refine List.nodup_append.mpr ⟨hndq, by simp, ?_⟩
      intro x hx hx'
      have : x = id := by simpa using hx'
      exact hneq x hx this.symm
    · intro x hx hx'
      have hx2 : x ∈ s.queue ++ [id] := hx
      rcases List.mem_append.mp hx2 with hold | hnew
      · exact hdqb hold hx'
      · have : x = id := by simpa using hnew
        subst this
        exact hneb x hx' rfl
    · intro x hx hx'
      have hx2 : x ∈ s.queue ++ [id] := hx
      rcases List.mem_append.mp hx2 with hold | hnew
      · exact hdqi hold hx'
      · have : x = id := by simpa using hnew
        subst this
        exact hnei x hx' rfl
    · show (((id, _) :: s.jobs).map Prod.fst).Nodup
      rw [List.map_cons]
      exact List.nodup_cons.mpr
        ⟨not_mem_keys_of_lookup_none s.jobs id fresh, hkeys⟩
  · refine ⟨?_, ?_, ?_, ⟨hndq, ?_, hndi⟩, ⟨?_, hdqi, ?_⟩, ?_⟩
    · intro id' hid'
      have hid2 : id' ∈ s.queue := hid'
      obtain ⟨j, hj, hp⟩ := hq id' hid2
      refine ⟨j, ?_, hp⟩
      show lookupJob ((id, _) :: s.jobs) id' = some j
      rw [lookup_cons_of_ne _ _ _ _ (hneq id' hid2)]
      exact hj
    · intro id' hid'
      have hid2 : id' ∈ s.blocked ++ [id] := hid'
      rcases List.mem_append.mp hid2 with hold | hnew
      · obtain ⟨j, hj, hp⟩ := hb id' hold
        refine ⟨j, ?_, hp⟩
        show lookupJob ((id, _) :: s.jobs) id' = some j
        rw [lookup_cons_of_ne _ _ _ _ (hneb id' hold)]
        exact hj
      · have : id' = id := by simpa using hnew
        subst this
        exact ⟨⟨a, f, l, .pending, none, none, t, none, none⟩,
          lookup_cons_self _ _ _, rfl⟩
    · intro id' hid'
      have hid2 : id' ∈ s.inflight := hid'
      obtain ⟨j, hj, hp⟩ := hin id' hid2
      refine ⟨j, ?_, hp⟩
      show lookupJob ((id, _) :: s.jobs) id' = some j
      rw [lookup_cons_of_ne _ _ _ _ (hnei id' hid2)]
      exact hj
    · show (s.blocked ++ [id]).Nodup
      refine List.nodup_append.mpr ⟨hndb, by simp, ?_⟩
      intro x hx hx'
      have : x = id := by simpa using hx'
      exact hneb x hx this.symm
    · intro x hx hx'
      have hx2 : x ∈ s.blocked ++ [id] := hx'
      rcases List.mem_append.mp hx2 with hold | hnew
      · exact hdqb hx hold
      · have : x = id := by simpa using hnew
        subst this
        exact hneq x hx rfl
    · intro x hx hx'
      have hx2 : x ∈ s.blocked ++ [id] := hx
      rcases List.mem_append.mp hx2 with hold | hnew
      · exact hdbi hold hx'
      · have : x = id := by simpa using hnew
        subst this
        exact hnei x hx' rfl
    · show (((id, _) :: s.jobs).map Prod.fst).Nodup
      rw [List.map_cons]
      exact List.nodup_cons.mpr
        ⟨not_mem_keys_of_lookup_none s.jobs id fresh, hkeys⟩

/-- A resumed `queue.put` waiter preserves the invariant. -/
theorem inv_resume (s : QState) (id : Nat) (rest : List Nat) (hInv : Inv s)
    (hbl : s.blocked = id :: rest) :
    Inv { s with blocked := rest, queue := s.queue ++ [id] } := by
  obtain ⟨hq, hb, hin, ⟨hndq, hndb, hndi⟩, ⟨hdqb, hdqi, hdbi⟩, hkeys⟩ := hInv
  have hmemb : id ∈ s.blocked := by rw [hbl]; exact List.mem_cons_self _ _
  have hrest : ∀ x ∈ rest, x ∈ s.blocked := fun x hx => by
    rw [hbl]; exact List.mem_cons_of_mem _ hx
  have hndb' : (id :: rest).Nodup := hbl ▸ hndb
  refine ⟨?_, ?_, ?_, ⟨?_, ?_, hndi⟩, ⟨?_, ?_, ?_⟩, hkeys⟩
  · intro id' hid'
    have hid2 : id' ∈ s.queue ++ [id] := hid'
    rcases List.mem_append.mp hid2 with hold | hnew
    · exact hq id' hold
    · have : id' = id := by simpa using hnew
      subst this
      exact hb id' hmemb
  · intro id' hid'
    have hid2 : id' ∈ rest := hid'
    exact hb id' (hrest id' hid2)
  · intro id' hid'
    exact hin id' hid'
  · show (s.queue ++ [id]).Nodup
    refine List.nodup_append.mpr ⟨hndq, by simp, ?_⟩
    intro x hx hx'
    have : x = id := by simpa using hx'
    subst this
    exact hdqb hx hmemb
  · exact (List.nodup_cons.mp hndb').2
  · intro x hx hx'
    have hx2 : x ∈ s.queue ++ [id] := hx
    rcases List.mem_append.mp hx2 with hold | hnew
    · exact hdqb hold (hrest x hx')
    · have : x = id := by simpa using hnew
      subst this
      exact (List.nodup_cons.mp hndb').1 hx'
  · intro x hx hx'
    have hx2 : x ∈ s.queue ++ [id] := hx
    rcases List.mem_append.mp hx2 with hold | hnew
    · exact hdqi hold hx'
    · have : x = id := by simpa using hnew
      subst this
      exact hdbi hmemb hx'
  · intro x hx hx'
    exact hdbi (hrest x hx) hx'

/-- A worker dequeuing the queue head preserves the invariant. -/
theorem inv_take (s : QState) (id : Nat) (rest : List Nat) (now : Nat)
    (hInv : Inv s) (hqe : s.queue = id :: rest) :
    Inv { s with queue := rest,
                 inflight := id :: s.inflight,
                 jobs := updateJob s.jobs id (fun j =>
                   { j with status := .processing,
                            started_at := some now }) } := by
  obtain ⟨hq, hb, hin, ⟨hndq, hndb, hndi⟩, ⟨hdqb, hdqi, hdbi⟩, hkeys⟩ := hInv
  have hmemq : id ∈ s.queue := by rw [hqe]; exact List.mem_cons_self _ _
  have hrest : ∀ x ∈ rest, x ∈ s.queue := fun x hx => by
    rw [hqe]; exact List.mem_cons_of_mem _ hx
  have hndq' : (id :: rest).Nodup := hqe ▸ hndq
  have hid_rest : id ∉ rest := (List.nodup_cons.mp hndq').1
  obtain ⟨j0, hj0, hj0pend⟩ := hq id hmemq
  refine ⟨?_, ?_, ?_, ⟨?_, hndb, ?_⟩, ⟨?_, ?_, ?_⟩, ?_⟩
  · intro id' hid'
    have hid2 : id' ∈ rest := hid'
    have hne : id ≠ id' := fun he => hid_rest (he ▸ hid2)
    obtain ⟨j, hj, hp⟩ := hq id' (hrest id' hid2)
    refine ⟨j, ?_, hp⟩
    dsimp only [QState.lookup]
    rw [lookupJob_updateJob_ne _ _ _ _ hne]
    exact hj
  · intro id' hid'
    have hid2 : id' ∈ s.blocked := hid'
    have hne : id ≠ id' := fun he => hdqb hmemq (he ▸ hid2)
    obtain ⟨j, hj, hp⟩ := hb id' hid2
    refine ⟨j, ?_, hp⟩
    dsimp only [QState.lookup]
    rw [lookupJob_updateJob_ne _ _ _ _ hne]
    exact hj
  · intro id' hid'
    have hid2 : id' ∈ id :: s.inflight := hid'
    rcases List.mem_cons.mp hid2 with rfl | hold
    · refine ⟨{ j0 with status := .processing, started_at := some now }, ?_, rfl⟩
      have hj0' : lookupJob s.jobs id' = some j0 := hj0
      dsimp only [QState.lookup]
      rw [lookupJob_updateJob_self, hj0']
      rfl
    · have hne : id ≠ id' := fun he => hdqi hmemq (he ▸ hold)
      obtain ⟨j, hj, hp⟩ := hin id' hold
      refine ⟨j, ?_, hp⟩
      dsimp only [QState.lookup]
      rw [lookupJob_updateJob_ne _ _ _ _ hne]
      exact hj
  · exact (List.nodup_cons.mp hndq').2
  · show (id :: s.inflight).Nodup
    exact List.nodup_cons.mpr ⟨fun hmem => hdqi hmemq hmem, hndi⟩
  · intro x hx hx'
    exact hdqb (hrest x hx) hx'
  · intro x hx hx'
    have hx2 : x ∈ id :: s.inflight := hx'
    rcases List.mem_cons.mp hx2 with rfl | hold
    · exact hid_rest hx
    · exact hdqi (hrest x hx) hold
  · intro x hx hx'
    have hx2 : x ∈ id :: s.inflight := hx'
    rcases List.mem_cons.mp hx2 with rfl | hold
    · exact hdqb hmemq hx
    · exact hdbi hx hold
  · dsimp only
    rw [updateJob_keys]
    exact hkeys

/-- A worker finishing an in-flight job (either outcome) preserves the
invariant: the job leaves `inflight`, and only its own record is mutated. -/
theorem inv_finish (s : QState) (id : Nat) (g : Job → Job) (hInv : Inv s)
    (hmem : id ∈ s.inflight) :
    Inv { s with inflight := s.inflight.erase id,
                 jobs := updateJob s.jobs id g } := by
  obtain ⟨hq, hb, hin, ⟨hndq, hndb, hndi⟩, ⟨hdqb, hdqi, hdbi⟩, hkeys⟩ := hInv
  refine ⟨?_, ?_, ?_, ⟨hndq, hndb, ?_⟩, ⟨hdqb, ?_, ?_⟩, ?_⟩
  · intro id' hid'
    have hid2 : id' ∈ s.queue := hid'
    have hne : id ≠ id' := fun he => hdqi hid2 (he ▸ hmem)
    obtain ⟨j, hj, hp⟩ := hq id' hid2
    refine ⟨j, ?_, hp⟩
    dsimp only [QState.lookup]
    rw [lookupJob_updateJob_ne _ _ _ _ hne]
    exact hj
  · intro id' hid'
    have hid2 : id' ∈ s.blocked := hid'
    have hne : id ≠ id' := fun he => hdbi hid2 (he ▸ hmem)
    obtain ⟨j, hj, hp⟩ := hb id' hid2
    refine ⟨j, ?_, hp⟩
    dsimp only [QState.lookup]
    rw [lookupJob_updateJob_ne _ _ _ _ hne]
    exact hj
  · intro id' hid'
    have hid2 : id' ∈ s.inflight.erase id := hid'
    have hmem' := hndi.mem_erase_iff.mp hid2
    have hne : id ≠ id' := fun he => hmem'.1 he.symm
    obtain ⟨j, hj, hp⟩ := hin id' hmem'.2
    refine ⟨j, ?_, hp⟩
    dsimp only [QState.lookup]
    rw [lookupJob_updateJob_ne _ _ _ _ hne]
    exact hj
  · show (s.inflight.erase id).Nodup
    exact hndi.sublist (List.erase_sublist _ _)
  · intro x hx hx'
    have hx2 : x ∈ s.inflight.erase id := hx'
    exact hdqi hx (hndi.mem_erase_iff.mp hx2).2
  · intro x hx hx'
    have hx2 : x ∈ s.inflight.erase id := hx'
    exact hdbi hx (hndi.mem_erase_iff.mp hx2).2
  · dsimp only
    rw [updateJob_keys]
    exact hkeys

/-- Every scheduler step preserves the invariant. -/
theorem inv_step {s s' : QState} (hInv : Inv s) (hs : Step s s') : Inv s' := by
  cases hs with
  | submit id a f l t fresh => exact inv_submit s id a f l t hInv fresh
  | resume id rest hb room => exact inv_resume s id rest hInv hb
  | take id rest now hq => exact inv_take s id rest now hInv hq
  | finish_ok id vtt now hin => exact inv_finish s id _ hInv hin
  | finish_err id msg now hin => exact inv_finish s id _ hInv hin

/-- Every reachable state satisfies the invariant. -/
theorem reachable_inv {s : QState} (h : Reachable s) : Inv s := by
  induction h with
  | init w m => exact inv_init w m
  | step _ hs ih => exact inv_step ih hs

theorem steps_trans {a b c : QState} (hab : Steps a b) (hbc : Steps b c) :
    Steps a c := by
  induction hbc with
  | refl => exact hab
  | tail _ h ih => exact ih.tail h

theorem reachable_steps {s t : QState} (hr : Reachable s) (hs : Steps s t) :
    Reachable t := by
  induction hs with
  | refl => exact hr
  | tail _ h ih => exact ih.step h

/-- One scheduler step never touches the record of a job that is already in
a terminal state: submits only create fresh ids, `take` only mutates a
`PENDING` queue head, `finish_*` only mutates a `PROCESSING` in-flight
job. -/
theorem step_keeps_terminal {s s' : QState} (hInv : Inv s) (hs : Step s s')
    {id : Nat} {j : Job} (hj : s.lookup id = some j)
    (hterm : j.status.terminal) : s'.lookup id = some j := by
  cases hs with
  | submit id0 a f l t fresh =>
    have hne : id0 ≠ id := ne_of_lookup_none_some fresh hj
    simp only [submit_job]
    split_ifs with hroom <;>
    · dsimp only [QState.lookup]
      rw [lookup_cons_of_ne _ _ _ _ hne]
      exact hj
  | resume id0 rest hb room => exact hj
  | take id0 rest now hq =>
    obtain ⟨j0, hj0, hp0⟩ :=
      hInv.1 id0 (by rw [hq]; exact List.mem_cons_self _ _)
    have hne : id0 ≠ id := by
      rintro rfl
      rw [hj0] at hj
      injection hj with h
      rw [← h, hp0] at hterm
      exact hterm
    dsimp only [QState.lookup]
    rw [lookupJob_updateJob_ne _ _ _ _ hne]
    exact hj
  | finish_ok id0 vtt now hin =>
    obtain ⟨j0, hj0, hp0⟩ := hInv.2.2.1 id0 hin
    have hne : id0 ≠ id := by
      rintro rfl
      rw [hj0] at hj
      injection hj with h
      rw [← h, hp0] at hterm
      exact hterm
    dsimp only [QState.lookup]
    rw [lookupJob_updateJob_ne _ _ _ _ hne]
    exact hj
  | finish_err id0 msg now hin =>
    obtain ⟨j0, hj0, hp0⟩ := hInv.2.2.1 id0 hin
    have hne : id0 ≠ id := by
      rintro rfl
      rw [hj0] at hj
      injection hj with h
      rw [← h, hp0] at hterm
      exact hterm
    dsimp only [QState.lookup]
    rw [lookupJob_updateJob_ne _ _ _ _ hne]
    exact hj

theorem steps_keep_terminal {s s' : QState} (hr : Reachable s)
    (hs : Steps s s') {id : Nat} {j : Job} (hj : s.lookup id = some j)
    (hterm : j.status.terminal) : s'.lookup id = some j := by
  induction hs with
  | refl => exact hj
  | tail hst hstep ih =>
    exact step_keeps_terminal
      (reachable_inv (reachable_steps hr hst)) hstep ih hterm

/-! ## Claim theorems for the job queue -/

/-- C5: once a job's status is `Completed` or `Failed` it never changes
again — across any sequence of scheduler steps from a reachable state, a
terminal job's record is untouched, so `get_job_status` returns the same
snapshot. -/
theorem terminal_state_frozen (s s' : QState) (id : Nat) (j : Job)
    (hr : Reachable s) (hs : Steps s s')
    (hj : s.lookup id = some j) (hterm : j.status.terminal) :
    s'.lookup id = some j ∧ get_job_status s' id = get_job_status s id := by
  have hl := steps_keep_terminal hr hs hj hterm
  refine ⟨hl, ?_⟩
  simp only [get_job_status, hj, hl]

/-- Witness for `terminal_state_frozen`: a failed job survives a later
submission unchanged. -/
theorem terminal_state_frozen_witness :
    Reachable exC5s3 ∧ Steps exC5s3 exC5s4 ∧
    exC5s3.lookup 0 = some exC5job ∧ exC5job.status.terminal ∧
    (exC5s4.lookup 0 = some exC5job ∧
      get_job_status exC5s4 0 = get_job_status exC5s3 0) := by
  have hreach : Reachable exC5s3 :=
    Reachable.step (Reachable.step (Reachable.step (Reachable.init 1 1)
      (Step.submit (initState 1 1) 0 7 "a.mp3" none 0 rfl))
      (Step.take exC5s1 0 [] 1 rfl))
      (Step.finish_err exC5s2 0 "boom" 2 (by decide))
  have hsteps : Steps exC5s3 exC5s4 :=
    Steps.tail (Steps.refl exC5s3)
      (Step.submit exC5s3 1 8 "b.mp3" none 3 (by decide))
  exact ⟨hreach, hsteps, by decide, trivial,
    terminal_state_frozen exC5s3 exC5s4 0 exC5job hreach hsteps
      (by decide) trivial⟩

theorem count_partition (jobs : List (Nat × Job)) :
    (jobs.filter (fun p => p.2.status = JobStatus.pending)).length +
      (jobs.filter (fun p => p.2.status = JobStatus.processing)).length +
      (jobs.filter (fun p => p.2.status = JobStatus.completed)).length +
      (jobs.filter (fun p => p.2.status = JobStatus.failed)).length =
      jobs.length := by
  induction jobs with
  | nil => rfl
  | cons p rest ih =>
    cases h : p.2.status <;> simp [List.filter_cons, h] <;> omega

/-- C10: the four per-status counters of `get_queue_info` partition the job
store — their sum is `total_jobs`, because every job's status is exactly one
of the four enum values. -/
theorem queue_info_partition (s : QState) (hr : Reachable s) :
    (get_queue_info s).pending + (get_queue_info s).processing +
      (get_queue_info s).completed + (get_queue_info s).failed =
      (get_queue_info s).total_jobs := by
  clear hr
  dsimp only [get_queue_info]
  exact count_partition s.jobs

/-- Witness for `queue_info_partition` at a freshly constructed manager. -/
theorem queue_info_partition_witness :
    Reachable (initState 2 100) ∧
    (get_queue_info (initState 2 100)).pending +
        (get_queue_info (initState 2 100)).processing +
        (get_queue_info (initState 2 100)).completed +
        (get_queue_info (initState 2 100)).failed =
      (get_queue_info (initState 2 100)).total_jobs :=
  ⟨Reachable.init 2 100, queue_info_partition _ (Reachable.init 2 100)⟩

/-- C1 (code bug): with capacity 1, the first submission is accepted, but
the second one *blocks* inside `await queue.put(job)` with the job left
`PENDING` and no error — it is not rejected synchronously and never marked
`Failed`, because the awaited `put` waits for space instead of raising
`QueueFull` (only `put_nowait` raises it), so the
`except asyncio.QueueFull` handler in `submit_job` is dead code.  In general
a `submit_job` call always leaves the new job `PENDING`. -/
theorem submit_never_fast_fails :
    (submit_job (initState 2 1) 0 7 "a.mp3" none 0).1 =
      SubmitOutcome.accepted 0 ∧
    (submit_job ((submit_job (initState 2 1) 0 7 "a.mp3" none 0).2)
        1 8 "b.mp3" none 1).1 = SubmitOutcome.blocked 1 ∧
    (submit_job ((submit_job (initState 2 1) 0 7 "a.mp3" none 0).2)
        1 8 "b.mp3" none 1).2.lookup 1 =
      some { audio_data := 8, filename := "b.mp3", language := none,
             status := .pending, result := none, error := none,
             created_at := 1, started_at := none, completed_at := none } ∧
    ∀ (s : QState) (id a : Nat) (f : String) (l : Option String) (t : Nat),
      (submit_job s id a f l t).2.lookup id =
        some { audio_data := a, filename := f, language := l,
               status := .pending, result := none, error := none,
               created_at := t, started_at := none, completed_at := none } := by
  refine ⟨by decide, by decide, by decide, ?_⟩
  intro s id a f l t
  simp only [submit_job]
  split_ifs <;>
  · dsimp only [QState.lookup]
    rw [lookup_cons_self]

theorem workerCycle_steps (oracle : Nat → Except String String) (now : Nat)
    (s : QState) (id : Nat) (rest : List Nat) (h : s.queue = id :: rest) :
    Steps s (workerCycle oracle now s id rest) := by
  simp only [workerCycle]
  cases o : oracle id with
  | ok vtt =>
    exact Steps.tail (Steps.tail (Steps.refl s) (Step.take s id rest now h))
      (Step.finish_ok _ id vtt now (List.mem_cons_self _ _))
  | error msg =>
    exact Steps.tail (Steps.tail (Steps.refl s) (Step.take s id rest now h))
      (Step.finish_err _ id msg now (List.mem_cons_self _ _))

theorem workerCycle_queue (oracle : Nat → Except String String) (now : Nat)
    (s : QState) (id : Nat) (rest : List Nat) :
    (workerCycle oracle now s id rest).queue = rest := by
  simp only [workerCycle]
  cases oracle id <;> rfl

theorem workerCycle_lookup_ne (oracle : Nat → Except String String)
    (now : Nat) (s : QState) (id : Nat) (rest : List Nat) (id' : Nat)
    (hne : id ≠ id') :
    (workerCycle oracle now s id rest).lookup id' = s.lookup id' := by
  simp only [workerCycle]
  cases oracle id <;>
  · dsimp only [QState.lookup]
    rw [lookupJob_updateJob_ne _ _ _ _ hne, lookupJob_updateJob_ne _ _ _ _ hne]

theorem workerCycle_lookup_self (oracle : Nat → Except String String)
    (now : Nat) (s : QState) (id : Nat) (rest : List Nat) :
    (workerCycle oracle now s id rest).lookup id =
      (s.lookup id).map (finishedJob oracle now id) := by
  cases hlu : lookupJob s.jobs id with
  | none =>
    simp only [workerCycle]
    cases oracle id <;>
    · dsimp only [QState.lookup]
      rw [lookupJob_updateJob_self, lookupJob_updateJob_self, hlu]
      rfl
  | some j =>
    simp only [workerCycle]
    cases o : oracle id <;>
    · dsimp only [QState.lookup]
      rw [lookupJob_updateJob_self, lookupJob_updateJob_self, hlu]
      simp [finishedJob, o]

theorem drainGo_steps (oracle : Nat → Except String String) (now : Nat) :
    ∀ (l : List Nat) (s : QState), s.queue = l →
      Steps s (drainGo oracle now s l)
  | [], s, _ => Steps.refl s
  | id :: rest, s, h =>
    steps_trans (workerCycle_steps oracle now s id rest h)
      (drainGo_steps oracle now rest _
        (workerCycle_queue oracle now s id rest))

theorem drainGo_lookup_not_mem (oracle : Nat → Except String String)
    (now : Nat) :
    ∀ (l : List Nat) (s : QState) (id : Nat), id ∉ l →
      (drainGo oracle now s l).lookup id = s.lookup id
  | [], _, _, _ => rfl
  | i :: rest, s, id, h => by
    have hne : i ≠ id := fun he => h (he ▸ List.mem_cons_self _ _)
    have h' : id ∉ rest := fun hm => h (List.mem_cons_of_mem _ hm)
    show (drainGo oracle now (workerCycle oracle now s i rest) rest).lookup id = _
    rw [drainGo_lookup_not_mem oracle now rest _ id h',
      workerCycle_lookup_ne oracle now s i rest id hne]

theorem drainGo_lookup_mem (oracle : Nat → Except String String) (now : Nat) :
    ∀ (l : List Nat) (s : QState) (id : Nat), l.Nodup → id ∈ l →
      (drainGo oracle now s l).lookup id =
        (s.lookup id).map (finishedJob oracle now id)
  | i :: rest, s, id, hnd, hmem => by
    rcases List.mem_cons.mp hmem with rfl | hmem'
    · have hnotin : id ∉ rest := (List.nodup_cons.mp hnd).1
      show (drainGo oracle now (workerCycle oracle now s id rest) rest).lookup
          id = _
      rw [drainGo_lookup_not_mem oracle now rest _ id hnotin,
        workerCycle_lookup_self oracle now s id rest]
    · have hne : i ≠ id := fun he => (List.nodup_cons.mp hnd).1 (he ▸ hmem')
      show (drainGo oracle now (workerCycle oracle now s i rest) rest).lookup
          id = _
      rw [drainGo_lookup_mem oracle now rest _ id
          (List.nodup_cons.mp hnd).2 hmem',
        workerCycle_lookup_ne oracle now s i rest id hne]

/-- C9: a transcription failure is contained to its own job.  Draining the
queue of any reachable state is a genuine run of the scheduler (`Steps`),
and *every* queued job — regardless of how many earlier jobs' transcriptions
raised — ends in the terminal record determined by its own outcome:
`COMPLETED` with the rendered text, or `FAILED` with the error message
stored and `completed_at` recorded.  No exception ever terminates the
processing of the remaining jobs. -/
theorem worker_failure_contained (s : QState)
    (oracle : Nat → Except String String) (now : Nat) (id : Nat) (j : Job)
    (hr : Reachable s) (hid : id ∈ s.queue) (hj : s.lookup id = some j) :
    Steps s (drainQueue s oracle now) ∧
    (drainQueue s oracle now).lookup id = some (finishedJob oracle now id j) := by
  have hInv := reachable_inv hr
  have hnodup : s.queue.Nodup := hInv.2.2.2.1.1
  refine ⟨drainGo_steps oracle now s.queue s rfl, ?_⟩
  show (drainGo oracle now s s.queue).lookup id = _
  rw [drainGo_lookup_mem oracle now s.queue s id hnodup hid, hj]
  rfl

/-- Witness for `worker_failure_contained`: with job 0's transcription
raising and job 1's succeeding, job 1 still completes and job 0 is recorded
`FAILED` with its error message. -/
theorem worker_failure_contained_witness :
    (1 ∈ exC9s.queue) ∧ exC9s.lookup 1 = some exC9jobB ∧
    (Steps exC9s (drainQueue exC9s exC9oracle 9) ∧
      (drainQueue exC9s exC9oracle 9).lookup 1 =
        some (finishedJob exC9oracle 9 1 exC9jobB)) ∧
    (drainQueue exC9s exC9oracle 9).lookup 0 =
      some (finishedJob exC9oracle 9 0 exC9jobA) ∧
    finishedJob exC9oracle 9 0 exC9jobA =
      { exC9jobA with status := JobStatus.failed, started_at := some 9,
                      error := some "decode failed", completed_at := some 9 } ∧
    finishedJob exC9oracle 9 1 exC9jobB =
      { exC9jobB with status := JobStatus.completed, started_at := some 9,
                      result := some "WEBVTT", completed_at := some 9 } := by
  have hreach : Reachable exC9s :=
    Reachable.step (Reachable.step (Reachable.init 1 5)
      (Step.submit (initState 1 5) 0 7 "a.mp3" none 0 rfl))
      (Step.submit (submit_job (initState 1 5) 0 7 "a.mp3" none 0).2
        1 8 "b.mp3" none 1 (by decide))
  refine ⟨by decide, by decide,
    worker_failure_contained exC9s exC9oracle 9 1 exC9jobB hreach
      (by decide) (by decide),
    (worker_failure_contained exC9s exC9oracle 9 0 exC9jobA hreach
      (by decide) (by decide)).2, by decide, by decide⟩

end AudioToVtt
